import Mathlib

/-!
# Wombats: a verification development

A shallow embedding of the command layer of the Wombats project tool
(`pkg/cmd/version.go`, `pkg/cmd/new.go`) together with theorems about
version extraction, argument validation and project scaffolding.

Conventions of the embedding.

* A Go `string` is a Lean `String`; the text processing runs on its list of
  characters.  The pattern and the separators of this program are ASCII, so
  matching on code points agrees with Go's matching on UTF-8 text.
* A Go `error` is an `Option String`: `none` is `nil`, `some msg` is an error
  whose message is `msg`.
* A function returning `(string, error)` returns a pair.
* Code that can hit a run-time panic (an index out of range) returns `Run`.
* Calls that leave the process (the file system, child processes, the flag
  set, the logger) are recorded as a trace of `Event`s; what the outside world
  answers is read from an environment record.
-/

namespace Wombats

/-! ## Go runtime and library fragments -/

/-- Go `error`: `none` is `nil`. -/
abbrev GoError := Option String

/-- Outcome of Go code that either returns normally or panics at run time. -/
inductive Run (α : Type) where
  | ret (a : α)
  | panic (msg : String)
  deriving DecidableEq, Repr

/-- One element of a compiled pattern: a test on a single character
(`one`), or the greedy repetition `+` of such a test (`many1`). -/
inductive Atom where
  | one (p : Char → Bool)
  | many1 (p : Char → Bool)

/-- Greedy `p+` followed by the continuation `k`: consume as many characters
as possible and give characters back only when the rest of the pattern fails
(the leftmost-first preference order of Go's `regexp`). The result is the
matched text. -/
def matchMany1 (p : Char → Bool) (k : List Char → Option (List Char)) :
    List Char → Option (List Char)
  | [] => none
  | c :: cs =>
    if p c then
      match matchMany1 p k cs with
      | some m => some (c :: m)
      | none => (k cs).map (c :: ·)
    else none

/-- Match a pattern anchored at the start of the text; the matched text. -/
def matchHere : List Atom → List Char → Option (List Char)
  | [], _ => some []
  | Atom.one _ :: _, [] => none
  | Atom.one p :: rest, c :: cs =>
    if p c then (matchHere rest cs).map (c :: ·) else none
  | Atom.many1 p :: rest, s => matchMany1 p (matchHere rest) s

/-- The leftmost match of an unanchored pattern. -/
def findAt (re : List Atom) : List Char → Option (List Char)
  | [] => matchHere re []
  | c :: cs =>
    match matchHere re (c :: cs) with
    | some m => some m
    | none => findAt re cs

/-- Go `(*Regexp).FindString`: the text of the leftmost match, `""` when there is
no match. -/
def FindString (re : List Atom) (s : String) : String :=
  match findAt re s.data with
  | some m => String.mk m
  | none => ""

/-- Split a text at every occurrence of a one-character separator. -/
def splitChars (sep : Char) : List Char → List (List Char)
  | [] => [[]]
  | c :: cs =>
    if c = sep then [] :: splitChars sep cs
    else
      match splitChars sep cs with
      | [] => [[c]]
      | piece :: pieces => (c :: piece) :: pieces

/-- Go `strings.Split(s, sep)` for a separator of one character, as this program
calls it. -/
def Split (s : String) (sep : Char) : List String :=
  (splitChars sep s.data).map String.mk

/-- Go `unicode.IsSpace`: the Latin-1 spaces and the Unicode White_Space code
points above Latin-1. -/
def isSpace (c : Char) : Bool :=
  let n := c.toNat
  if n ≤ 0xFF then
    n == 0x09 || n == 0x0A || n == 0x0B || n == 0x0C || n == 0x0D || n == 0x20
      || n == 0x85 || n == 0xA0
  else
    n == 0x1680 || (0x2000 ≤ n && n ≤ 0x200A) || n == 0x2028 || n == 0x2029
      || n == 0x202F || n == 0x205F || n == 0x3000

/-- Go `strings.TrimSpace`: drop leading, then trailing, white space. -/
def TrimSpace (s : String) : String :=
  String.mk ((s.data.dropWhile isSpace).reverse.dropWhile isSpace).reverse

/-! ## version.go -/

/-- The character class `[\d+.?]`: an ASCII digit, `+`, `.` or `?`. -/
def versionClass (c : Char) : Bool :=
  c.isDigit || c == '+' || c == '.' || c == '?'

/-- The compiled form of the pattern `version [\d+.?]+`: the eight literal
characters of `version ` and the greedy repetition of the class. -/
def versionRegexp : List Atom :=
  ("version ".data.map fun l => Atom.one (· == l)) ++ [Atom.many1 versionClass]

/-- The function `getATSVersion`, given what `ats.ExecPatsccOutput("-vats")` returned.
`regexp.Compile` accepts the pattern, so its error branch is not taken. -/
def getATSVersion (exec : String × GoError) : Run (String × GoError) :=
  match exec.2 with
  | some err => Run.ret ("", some err)
  | none =>
    let version := FindString versionRegexp exec.1
    if version = "" then
      Run.ret ("", some "could not find ATS version")
    else
      match (Split version ' ')[1]? with
      | some t => Run.ret (t, none)
      | none => Run.panic "index out of range [1]"

/-- What the `gcc -dumpversion` child process does, step by step. -/
structure GccProcess where
  /-- error of `cmd.StdoutPipe()` -/
  pipeErr : GoError
  /-- error of `cmd.Start()` -/
  startErr : GoError
  /-- bytes read by `ioutil.ReadAll(stdout)`, as text -/
  stdout : String
  /-- error of `ioutil.ReadAll(stdout)` -/
  readErr : GoError
  /-- error of `cmd.Wait()` -/
  waitErr : GoError

/-- The function `getGCCVersion` over the behaviour of the child process. -/
def getGCCVersion (p : GccProcess) : String × GoError :=
  match p.pipeErr with
  | some err => ("", some err)
  | none =>
    match p.startErr with
    | some err => ("", some err)
    | none =>
      match p.readErr with
      | some err => ("", some err)
      | none =>
        match p.waitErr with
        | some err => ("", some err)
        | none => (TrimSpace p.stdout, none)

/-! ## new.go -/

/-- The operands of a format that no verb consumed, as `fmt` reports them. -/
def extraOperands (args : List String) : List Char :=
  "%!(EXTRA ".data ++ (", ".intercalate (args.map fun a => "string=" ++ a)).data ++ ")".data

/-- The formatting loop of `fmt.Sprintf` for string operands: `%s` prints the
next operand (`%!s(MISSING)` when there is none), `%%` prints a percent sign,
every other character is copied, and operands left over are reported at the
end. The formats of this program use no other verb. -/
def sprintfChars : List Char → List String → List Char
  | [], [] => []
  | [], a :: as => extraOperands (a :: as)
  | [c], args =>
    if c = '%' then "%!(NOVERB)".data ++ sprintfChars [] args
    else c :: sprintfChars [] args
  | c :: v :: rest, args =>
    if c = '%' then
      if v = 's' then
        match args with
        | [] => "%!s(MISSING)".data ++ sprintfChars rest []
        | a :: as => a.data ++ sprintfChars rest as
      else if v = '%' then '%' :: sprintfChars rest args
      else c :: sprintfChars (v :: rest) args
    else c :: sprintfChars (v :: rest) args

/-- Go `fmt.Sprintf(format, args...)` with string operands. -/
def Sprintf (format : String) (args : List String) : String :=
  String.mk (sprintfChars format.data args)

/-- Go `fmt.Errorf(format, args...)`: an error whose message is the formatted
text. -/
def Errorf (format : String) (args : List String) : GoError :=
  some (Sprintf format args)

/-- The template of the generated `.dats` file. -/
def defaultDATS : String :=
  "(* ****** ****** *)\n" ++
  "//\n" ++
  "// %s.dats\n" ++
  "// Generated by wombats (https://github.com/RyanTKing/wombat)\n" ++
  "//\n" ++
  "(* ****** ****** *)\n" ++
  "\n" ++
  "#include \"./%sstaloadall.hats\"\n" ++
  "\n" ++
  "(* ****** ****** *)\n" ++
  "\n" ++
  "implement main0() = () where \x7b\n" ++
  "  val _ = print(\"Hello from %s!\\n\")\n" ++
  "\x7d\n" ++
  "\n" ++
  "(* End of [%s.dats] *)"

/-- The template of the generated `.sats` file. -/
def defaultSATS : String :=
  "(* ****** ****** *)\n" ++
  "//\n" ++
  "// %s.sats\n" ++
  "// Generated by wombats (https://github.com/RyanTKing/wombat)\n" ++
  "//\n" ++
  "(* ****** ****** *)\n" ++
  "\n" ++
  "(* End of [%s.sats] *)"

/-- The template of the generated `staloadall.hats` file. -/
def defaultHATS : String :=
  "(* ****** ****** *)\n" ++
  "//\n" ++
  "// staloadall.hats\n" ++
  "// Generated by wombats (https://github.com/RyanTKing/wombats)\n" ++
  "//\n" ++
  "(* ****** ****** *)\n" ++
  "\n" ++
  "#staload \"./%s%s.sats\"\n" ++
  "\n" ++
  "(* End of [staloadall.hats] *)"

/-- The function `validateNewArgs` validates the arguments given to `new`. -/
def validateNewArgs (small cats : Bool) (args : List String) : GoError :=
  if args.length = 0 then
    Errorf "no project path provided" []
  else if h : args.length > 1 then
    Errorf "found unexpected argument '%s'" [args[1]]
  else if small && cats then
    Errorf "can't specify a CATS directory in a small project" []
  else
    none

/-- A call made by the `new` command (to a helper, the manifest package, the
file system or the logger), in the order performed. -/
inductive Event where
  /-- call of `os.Mkdir(dir, os.ModePerm)` -/
  | mkdir (dir : String)
  /-- call of `os.Create(path)` -/
  | create (path : String)
  /-- call of `WriteString(text)` on the file created at `path` -/
  | writeString (path text : String)
  /-- call of `makeProjectDir(name)` -/
  | makeProjectDir (name : String)
  /-- call of `config.New(name, projName, small)` -/
  | configNew (name projName : String) (small : Bool)
  /-- call of `config.Write()` -/
  | configWrite
  /-- call of `initGitRepo()` -/
  | initGitRepo
  /-- call of `createDirs(lib, cats)` -/
  | createDirs (lib cats : Bool)
  /-- call of `createDefaultFiles(name, projName, small)` -/
  | createDefaultFiles (name projName : String) (small : Bool)
  /-- call of `log.Debug` -/
  | debug (msg : String)
  /-- call of `log.Infof` -/
  | info (msg : String)
  /-- call of `log.Fatal`, which ends the process -/
  | fatal (msg : String)
  /-- a run-time panic -/
  | panic (msg : String)
  deriving DecidableEq, Repr

/-- The keys of the `files` map of `createDefaultFiles`. -/
inductive FileKey where
  | dats
  | sats
  | hats
  deriving DecidableEq, Repr

/-- What the file system answers. `order` is the order in which `range`
visits the keys of the `files` map, which Go leaves unspecified. -/
structure World where
  mkdir : String → GoError
  create : String → GoError
  writeString : String → String → GoError
  order : List FileKey

/-- The list `dirs` that `createDirs` builds before it makes the
directories. -/
def createDirs_dirs (lib cats : Bool) : List String :=
  let dirs := ["SATS", "DATS"]
  let dirs := if !lib then dirs ++ ["BUILD"] else dirs
  let dirs := if cats then dirs ++ ["CATS"] else dirs
  dirs

/-- The loop of `createDirs`: make each directory, stop at the first error. -/
def mkdirEach (w : World) : List String → List Event × GoError
  | [] => ([], none)
  | dir :: rest =>
    match w.mkdir dir with
    | some err => ([Event.mkdir dir], some err)
    | none => (Event.mkdir dir :: (mkdirEach w rest).1, (mkdirEach w rest).2)

/-- The function `createDirs`: the calls it makes and the error it returns. -/
def createDirs (w : World) (lib cats : Bool) : List Event × GoError :=
  mkdirEach w (createDirs_dirs lib cats)

/-- An entry of the `files` map: the text and the path of a file. -/
structure FileEntry where
  text : String
  path : String
  deriving DecidableEq, Repr

/-- The `files` map of `createDefaultFiles`, one field a key. -/
structure FileTable where
  dats : FileEntry
  sats : FileEntry
  hats : FileEntry
  deriving DecidableEq, Repr

/-- The entry of a key. -/
def FileTable.get (t : FileTable) : FileKey → FileEntry
  | FileKey.dats => t.dats
  | FileKey.sats => t.sats
  | FileKey.hats => t.hats

/-- The first half of `createDefaultFiles`: the default text and path of
every file. -/
def createDefaultFiles_files (name projName : String) (small : Bool) : FileTable :=
  let files : FileTable :=
    { dats := { text := "", path := "" }
      sats := { text := Sprintf defaultSATS [name, name], path := "" }
      hats := { text := "", path := "staloadall.hats" } }
  if small then
    { dats := { text := Sprintf defaultDATS [projName, "", name, projName]
                path := Sprintf "%s.dats" [projName] }
      sats := { files.sats with path := Sprintf "%s.sats" [projName] }
      hats := { files.hats with text := Sprintf defaultHATS ["", projName] } }
  else
    { dats := { text := Sprintf defaultDATS [projName, "../", name, projName]
                path := Sprintf "DATS/%s.dats" [projName] }
      sats := { files.sats with path := Sprintf "SATS/%s.sats" [projName] }
      hats := { files.hats with text := Sprintf defaultHATS ["SATS/", projName] } }

/-- The second half of `createDefaultFiles`: create each file and write its
text, stop at the first error. -/
def writeEach (w : World) (files : FileTable) : List FileKey → List Event × GoError
  | [] => ([], none)
  | key :: rest =>
    let file := files.get key
    match w.create file.path with
    | some err => ([Event.create file.path], some err)
    | none =>
      match w.writeString file.path file.text with
      | some err => ([Event.create file.path, Event.writeString file.path file.text], some err)
      | none =>
        (Event.create file.path :: Event.writeString file.path file.text ::
          (writeEach w files rest).1, (writeEach w files rest).2)

/-- The function `createDefaultFiles`: the calls it makes and the error it returns. -/
def createDefaultFiles (w : World) (name projName : String) (small : Bool) :
    List Event × GoError :=
  writeEach w (createDefaultFiles_files name projName small) w.order

/-- What the flag set, the working directory and the helpers of `runNew`
answer. A flag getter returns a value and an error. -/
structure NewEnv where
  small : Bool × GoError
  cats : Bool × GoError
  lib : Bool × GoError
  name : String × GoError
  git : Bool × GoError
  /-- result of `makeProjectDir(path)` -/
  makeProjectDir : String → GoError
  /-- result of `getProjName()`: the base name of the working directory -/
  getProjName : String × GoError
  /-- result of `config.Write()` -/
  configWrite : GoError
  /-- result of `initGitRepo()` -/
  initGitRepo : GoError
  world : World

/-- A `log.Debug(err)` followed by a `log.Fatal(msg)`. -/
def debugFatal (err msg : String) : List Event :=
  [Event.debug err, Event.fatal msg]

/-- The end of `runNew`: the directories, the default files, the final log
line. -/
def runNew_scaffold (env : NewEnv) (name projName : String) (small lib cats : Bool) :
    List Event :=
  let dirs : List Event × GoError :=
    if !small then
      (Event.createDirs lib cats :: (createDirs env.world lib cats).1,
        (createDirs env.world lib cats).2)
    else ([], none)
  match dirs.2 with
  | some err => dirs.1 ++ debugFatal err "could not create directories"
  | none =>
    let files := createDefaultFiles env.world name projName small
    let call := Event.createDefaultFiles name projName small
    match files.2 with
    | some err =>
      dirs.1 ++ call :: files.1 ++ debugFatal err "could not create default files"
    | none =>
      dirs.1 ++ call :: files.1 ++
        [Event.info (Sprintf "Created application '%s' project" [name])]

/-- The middle of `runNew`: the manifest and the optional git repository. -/
def runNew_config (env : NewEnv) (name projName : String) (small lib cats : Bool) :
    List Event :=
  Event.configNew name projName small :: Event.configWrite ::
  match env.configWrite with
  | some err => debugFatal err "could not create 'Wombats.toml' file"
  | none =>
    match env.git.2 with
    | some err => debugFatal err "could not check command flag"
    | none =>
      if env.git.1 then
        Event.initGitRepo ::
        match env.initGitRepo with
        | some err => debugFatal err err
        | none => runNew_scaffold env name projName small lib cats
      else runNew_scaffold env name projName small lib cats

/-- The function `runNew`: the trace of one run of the `new` command. -/
def runNew (env : NewEnv) (args : List String) : List Event :=
  match env.small.2 with
  | some err => debugFatal err "could not check command flag"
  | none =>
  match env.cats.2 with
  | some err => debugFatal err "could not check command flag"
  | none =>
  match env.lib.2 with
  | some err => debugFatal err "could not check command flag"
  | none =>
  let small := env.small.1
  let cats := env.cats.1
  let lib := env.lib.1
  match validateNewArgs small cats args with
  | some err => [Event.fatal err]
  | none =>
  match args[0]? with
  | none => [Event.panic "index out of range [0]"]
  | some path =>
  Event.makeProjectDir path ::
  match env.makeProjectDir path with
  | some err =>
    [Event.debug ("mkdir error: %s " ++ err),
     Event.fatal (Sprintf "could not create directory: '%s'" [path])]
  | none =>
  match env.getProjName.2 with
  | some err => debugFatal err "could not get current directory"
  | none =>
  let projName := env.getProjName.1
  match env.name.2 with
  | some err => debugFatal err "could not check command flag"
  | none =>
  let name := if env.name.1 = "" then projName else env.name.1
  runNew_config env name projName small lib cats

/-- A file system on which every call succeeds; `range` visits the keys in
the order `dats`, `sats`, `hats`. -/
def okWorld : World :=
  { mkdir := fun _ => none
    create := fun _ => none
    writeString := fun _ _ => none
    order := [FileKey.dats, FileKey.sats, FileKey.hats] }

/-- A run of `wom new` in which every call succeeds: no flag is set, the
`--name` flag has its default `""`, and the new directory is `myproj`. -/
def okEnv : NewEnv :=
  { small := (false, none)
    cats := (false, none)
    lib := (false, none)
    name := ("", none)
    git := (false, none)
    makeProjectDir := fun _ => none
    getProjName := ("myproj", none)
    configWrite := none
    initGitRepo := none
    world := okWorld }

/-- Log lines: the events that are no call. -/
def Event.isLog : Event → Bool
  | Event.debug _ => true
  | Event.info _ => true
  | Event.fatal _ => true
  | _ => false

/-! ## Lemmas on matching -/

theorem matchHere_nil (s : List Char) : matchHere [] s = some [] := by
  cases s <;> rfl

theorem matchHere_one_cons (p : Char → Bool) (rest : List Atom) (c : Char) (cs : List Char) :
    matchHere (Atom.one p :: rest) (c :: cs) =
      if p c then (matchHere rest cs).map (c :: ·) else none := rfl

theorem matchHere_many1 (p : Char → Bool) (rest : List Atom) (s : List Char) :
    matchHere (Atom.many1 p :: rest) s = matchMany1 p (matchHere rest) s := by
  cases s <;> rfl

theorem matchMany1_last (p : Char → Bool) (k : List Char → Option (List Char))
    (hk : ∀ s, k s = some []) (s : List Char) :
    matchMany1 p k s = if s.takeWhile p = [] then none else some (s.takeWhile p) := by
  induction s with
  | nil => simp [matchMany1]
  | cons c cs ih =>
    by_cases hp : p c = true
    · by_cases h : cs.takeWhile p = []
      · simp [matchMany1, hp, ih, h, hk, List.takeWhile]
      · simp [matchMany1, hp, ih, h, List.takeWhile]
    · simp [matchMany1, hp, List.takeWhile]

theorem matchHere_lits (lits : List Char) (rest : List Atom) (t : List Char) :
    matchHere ((lits.map fun l => Atom.one (· == l)) ++ rest) (lits ++ t) =
      (matchHere rest t).map (lits ++ ·) := by
  induction lits with
  | nil => simp
  | cons l ls ih =>
    rw [List.map_cons, List.cons_append, List.cons_append, matchHere_one_cons, ih]
    simp [Option.map_map, Function.comp_def]

theorem matchHere_lits_some (lits : List Char) (rest : List Atom) (s m : List Char)
    (h : matchHere ((lits.map fun l => Atom.one (· == l)) ++ rest) s = some m) :
    ∃ t, s = lits ++ t := by
  induction lits generalizing s m with
  | nil => exact ⟨s, rfl⟩
  | cons l ls ih =>
    cases s with
    | nil => simp [matchHere] at h
    | cons c cs =>
      rw [List.map_cons, List.cons_append, matchHere_one_cons] at h
      by_cases hc : (c == l) = true
      · simp only [hc, if_true, Option.map_eq_some'] at h
        obtain ⟨m1, hm1, _⟩ := h
        obtain ⟨t, ht⟩ := ih cs m1 hm1
        have : c = l := by simpa using hc
        exact ⟨t, by rw [ht, this]; rfl⟩
      · simp [hc] at h

theorem matchHere_version_append (t : List Char) :
    matchHere versionRegexp ("version ".data ++ t) =
      if t.takeWhile versionClass = [] then none
      else some ("version ".data ++ t.takeWhile versionClass) := by
  unfold versionRegexp
  rw [matchHere_lits, matchHere_many1, matchMany1_last _ _ matchHere_nil]
  by_cases hr : t.takeWhile versionClass = [] <;> simp [hr]

theorem matchHere_version (s m : List Char) :
    matchHere versionRegexp s = some m ↔
      ∃ t, s = "version ".data ++ t ∧ t.takeWhile versionClass ≠ [] ∧
        m = "version ".data ++ t.takeWhile versionClass := by
  constructor
  · intro h
    obtain ⟨t, ht⟩ := matchHere_lits_some _ _ _ _ h
    refine ⟨t, ht, ?_⟩
    subst ht
    rw [matchHere_version_append] at h
    by_cases hr : t.takeWhile versionClass = []
    · simp [hr] at h
    · simp only [hr, if_false, Option.some.injEq] at h
      exact ⟨hr, h.symm⟩
  · rintro ⟨t, rfl, hr, rfl⟩
    rw [matchHere_version_append]
    simp [hr]

theorem findAt_cons_none (re : List Atom) (c : Char) (cs : List Char)
    (h : matchHere re (c :: cs) = none) : findAt re (c :: cs) = findAt re cs := by
  simp [findAt, h]

theorem findAt_skip (re : List Atom) (pre t : List Char)
    (h : ∀ i, i < pre.length → matchHere re ((pre ++ t).drop i) = none) :
    findAt re (pre ++ t) = findAt re t := by
  induction pre with
  | nil => rfl
  | cons c cs ih =>
    have h0 := h 0 (by simp)
    rw [List.drop_zero, List.cons_append] at h0
    rw [List.cons_append, findAt_cons_none re c _ h0]
    exact ih fun i hi => by simpa using h (i + 1) (by simpa using hi)

theorem findAt_here (re : List Atom) (t m : List Char) (h : matchHere re t = some m) :
    findAt re t = some m := by
  cases t with
  | nil => simpa [findAt] using h
  | cons c cs => simp [findAt, h]

theorem findAt_some (re : List Atom) (s m : List Char) (h : findAt re s = some m) :
    ∃ pre t, s = pre ++ t ∧ matchHere re t = some m := by
  induction s with
  | nil => exact ⟨[], [], rfl, by simpa [findAt] using h⟩
  | cons c cs ih =>
    cases hm : matchHere re (c :: cs) with
    | some m1 =>
      simp only [findAt, hm, Option.some.injEq] at h
      exact ⟨[], c :: cs, rfl, by rw [hm, h]⟩
    | none =>
      simp only [findAt, hm] at h
      obtain ⟨pre, t, hs, ht⟩ := ih h
      exact ⟨c :: pre, t, by rw [hs]; rfl, ht⟩

theorem findAt_none (re : List Atom) (s : List Char) (h : findAt re s = none)
    (pre t : List Char) (hs : s = pre ++ t) : matchHere re t = none := by
  induction s generalizing pre with
  | nil =>
    have : t = [] := by
      have := congrArg List.length hs
      simp at this
      exact List.length_eq_zero.mp (by omega)
    subst this
    simpa [findAt] using h
  | cons c cs ih =>
    cases hm : matchHere re (c :: cs) with
    | some m1 => simp [findAt, hm] at h
    | none =>
      simp only [findAt, hm] at h
      cases pre with
      | nil => simp at hs; rw [← hs]; exact hm
      | cons d ds =>
        simp only [List.cons_append, List.cons.injEq] at hs
        exact ih h ds hs.2

/-! ## Lemmas on splitting -/

theorem splitChars_no_sep (sep : Char) (s : List Char) (h : sep ∉ s) :
    splitChars sep s = [s] := by
  induction s with
  | nil => rfl
  | cons c cs ih =>
    simp only [List.mem_cons, not_or] at h
    have hc : ¬ c = sep := fun e => h.1 e.symm
    simp [splitChars, hc, ih h.2]

theorem splitChars_one_sep (sep : Char) (a b : List Char) (ha : sep ∉ a) (hb : sep ∉ b) :
    splitChars sep (a ++ sep :: b) = [a, b] := by
  induction a with
  | nil => simp [splitChars, splitChars_no_sep sep b hb]
  | cons c cs ih =>
    simp only [List.mem_cons, not_or] at ha
    have hc : ¬ c = sep := fun e => ha.1 e.symm
    simp [splitChars, hc, ih ha.2]

theorem versionClass_ne_space (c : Char) (h : versionClass c = true) : c ≠ ' ' := by
  rintro rfl
  revert h
  decide

theorem versionClass_toNat (c : Char) (h : versionClass c = true) :
    (48 ≤ c.toNat ∧ c.toNat ≤ 57) ∨ c.toNat = 43 ∨ c.toNat = 46 ∨ c.toNat = 63 := by
  simp only [versionClass, Char.isDigit, Bool.or_eq_true, Bool.and_eq_true, decide_eq_true_eq,
    beq_iff_eq] at h
  rcases h with ((h | h) | h) | h
  · left
    have h1 : (48 : UInt32) ≤ c.val := h.1
    have h2 : c.val ≤ (57 : UInt32) := h.2
    rw [UInt32.le_def] at h1 h2
    exact ⟨h1, h2⟩
  · subst h; right; left; rfl
  · subst h; right; right; left; rfl
  · subst h; right; right; right; rfl

theorem versionClass_not_isSpace (c : Char) (h : versionClass c = true) : isSpace c = false := by
  have := versionClass_toNat c h
  unfold isSpace
  simp only
  rcases this with h | h | h | h
  · have : c.toNat ≤ 255 := by omega
    simp only [this, if_true]
    simp
    omega
  all_goals simp [h]

/-! ## Lemmas on `getATSVersion` -/

theorem findAt_version_some (s m : List Char) (h : findAt versionRegexp s = some m) :
    ∃ pre r post, s = pre ++ "version ".data ++ r ++ post ∧ r ≠ [] ∧
      (∀ c ∈ r, versionClass c = true) ∧ m = "version ".data ++ r := by
  obtain ⟨pre, t, hs, ht⟩ := findAt_some _ _ _ h
  obtain ⟨u, hu, hr, hm⟩ := (matchHere_version t m).mp ht
  refine ⟨pre, u.takeWhile versionClass, u.dropWhile versionClass, ?_, hr,
    fun c hc => List.mem_takeWhile_imp hc, hm⟩
  rw [hs, hu]
  simp only [List.append_assoc, List.takeWhile_append_dropWhile]

theorem Split_version (r : List Char) (hr : ∀ c ∈ r, versionClass c = true) :
    Split (String.mk ("version ".data ++ r)) ' ' = ["version", String.mk r] := by
  have h1 : "version ".data ++ r = "version".data ++ ' ' :: r := rfl
  have h2 : ' ' ∉ "version".data := by decide
  have h3 : ' ' ∉ r := fun hmem => versionClass_ne_space ' ' (hr ' ' hmem) rfl
  simp only [Split, h1, splitChars_one_sep ' ' _ r h2 h3]
  rfl

theorem getATSVersion_match (out : String) (r : List Char)
    (hr : ∀ c ∈ r, versionClass c = true)
    (h : findAt versionRegexp out.data = some ("version ".data ++ r)) :
    getATSVersion (out, none) = Run.ret (String.mk r, none) := by
  have hf : FindString versionRegexp out = String.mk ("version ".data ++ r) := by
    simp only [FindString, h]
  have hn : ¬ String.mk ("version ".data ++ r) = "" := by
    intro e
    have := congrArg String.length e
    simp [String.length] at this
  simp only [getATSVersion, hf, hn, if_false, Split_version r hr]
  rfl

theorem getATSVersion_nomatch (out : String) (h : findAt versionRegexp out.data = none) :
    getATSVersion (out, none) = Run.ret ("", some "could not find ATS version") := by
  simp [getATSVersion, FindString, h]

theorem findAt_version_none_iff (s : List Char) :
    findAt versionRegexp s = none ↔
      ¬ ∃ pre c post, versionClass c = true ∧ s = pre ++ "version ".data ++ c :: post := by
  constructor
  · rintro h ⟨pre, c, post, hc, hs⟩
    have := findAt_none _ _ h pre ("version ".data ++ c :: post) (by rw [hs, List.append_assoc])
    rw [matchHere_version_append] at this
    simp [List.takeWhile, hc] at this
  · intro h
    cases hf : findAt versionRegexp s with
    | none => rfl
    | some m =>
      exfalso
      obtain ⟨pre, r, post, hs, hne, hr, _⟩ := findAt_version_some s m hf
      cases r with
      | nil => exact hne rfl
      | cons c cs =>
        exact h ⟨pre, c, cs ++ post, hr c (List.mem_cons_self _ _), by simp [hs]⟩

theorem takeWhile_run (p : Char → Bool) (a b : List Char) (ha : ∀ c ∈ a, p c = true)
    (hb : b = [] ∨ ∃ c rest, b = c :: rest ∧ ¬ p c = true) :
    (a ++ b).takeWhile p = a := by
  rw [List.takeWhile_append_of_pos ha]
  rcases hb with rfl | ⟨c, rest, rfl, hc⟩
  · simp
  · simp [List.takeWhile, hc]

/-! ## Theorems on version.go -/

/-- C1: when the output is `pre ++ "version " ++ v ++ post`, with `v` a
non-empty run of decimal digits and dots, no match of the pattern beginning
before position `len(pre)`, and `post` empty or beginning with a character
outside the class, the string processing of `getATSVersion` returns exactly
`v` and no error. -/
theorem getATSVersion_extracts (pre v post : String)
    (hv : v ≠ "")
    (hdigits : ∀ c ∈ v.data, c.isDigit = true ∨ c = '.')
    (hfirst : ∀ i, i < pre.length →
      matchHere versionRegexp ((pre ++ "version " ++ v ++ post).data.drop i) = none)
    (hpost : post = "" ∨ ∃ c rest, post.data = c :: rest ∧
      ¬ (c.isDigit = true ∨ c = '+' ∨ c = '.' ∨ c = '?')) :
    getATSVersion (pre ++ "version " ++ v ++ post, none) = Run.ret (v, none) := by
  have hcls : ∀ c ∈ v.data, versionClass c = true := by
    intro c hc
    rcases hdigits c hc with h | h <;> simp [versionClass, h]
  have hpost2 : post.data = [] ∨ ∃ c rest, post.data = c :: rest ∧ ¬ versionClass c = true := by
    rcases hpost with h | ⟨c, rest, h, hc⟩
    · left; rw [h]
    · right
      refine ⟨c, rest, h, ?_⟩
      simpa [versionClass, or_assoc] using hc
  have hdata : (pre ++ "version " ++ v ++ post).data =
      pre.data ++ ("version ".data ++ (v.data ++ post.data)) := by
    simp [String.data_append, List.append_assoc]
  have hrun := takeWhile_run versionClass v.data post.data hcls hpost2
  have hvne : v.data ≠ [] := fun e => hv (String.ext e)
  have hfind : findAt versionRegexp (pre ++ "version " ++ v ++ post).data =
      some ("version ".data ++ v.data) := by
    rw [hdata, findAt_skip]
    · apply findAt_here
      rw [matchHere_version_append, hrun]
      simp [hvne]
    · intro i hi
      rw [← hdata]
      exact hfirst i hi
  exact getATSVersion_match _ v.data hcls hfind

/-- Witness of C1: the output `ATS/Postiats version 3.4.2 [Copyright]`
yields `3.4.2`. -/
theorem getATSVersion_extracts_witness :
    getATSVersion ("ATS/Postiats " ++ "version " ++ "3.4.2" ++ " [Copyright]", none) =
      Run.ret ("3.4.2", none) :=
  getATSVersion_extracts "ATS/Postiats " "3.4.2" " [Copyright]" (by decide) (by decide)
    (by decide) (Or.inr ⟨' ', "[Copyright]".data, rfl, by decide⟩)

/-- C2: the string processing of `getATSVersion` returns the error (with the
empty string as value) exactly when the output has no occurrence of
`version ` directly followed by a digit, `+`, `.` or `?`; any error return
means there is no such occurrence, and an output without the substring
`version ` (the empty output among them) yields the error. -/
theorem getATSVersion_error_iff (out : String) :
    (getATSVersion (out, none) = Run.ret ("", some "could not find ATS version") ↔
      ¬ ∃ pre c post, (c.isDigit = true ∨ c = '+' ∨ c = '.' ∨ c = '?') ∧
        out.data = pre ++ "version ".data ++ c :: post) ∧
    ((∃ v err, getATSVersion (out, none) = Run.ret (v, some err)) ↔
      ¬ ∃ pre c post, (c.isDigit = true ∨ c = '+' ∨ c = '.' ∨ c = '?') ∧
        out.data = pre ++ "version ".data ++ c :: post) ∧
    (¬ "version ".data <:+: out.data →
      getATSVersion (out, none) = Run.ret ("", some "could not find ATS version")) ∧
    getATSVersion ("", none) = Run.ret ("", some "could not find ATS version") := by
  have key : findAt versionRegexp out.data = none ↔
      ¬ ∃ pre c post, (c.isDigit = true ∨ c = '+' ∨ c = '.' ∨ c = '?') ∧
        out.data = pre ++ "version ".data ++ c :: post := by
    rw [findAt_version_none_iff]
    simp only [versionClass, Bool.or_eq_true, beq_iff_eq, or_assoc]
  have herr : (∃ v err, getATSVersion (out, none) = Run.ret (v, some err)) →
      findAt versionRegexp out.data = none := by
    rintro ⟨v, err, h⟩
    cases hf : findAt versionRegexp out.data with
    | none => rfl
    | some m =>
      obtain ⟨_, r, _, _, hne, hr, hm⟩ := findAt_version_some _ m hf
      rw [hm] at hf
      rw [getATSVersion_match out r hr hf] at h
      simp at h
  refine ⟨⟨fun h => key.mp (herr ⟨_, _, h⟩), fun h => getATSVersion_nomatch out (key.mpr h)⟩,
    ⟨fun h => key.mp (herr h), fun h => ⟨_, _, getATSVersion_nomatch out (key.mpr h)⟩⟩, ?_, rfl⟩
  intro hno
  apply getATSVersion_nomatch out
  rw [key]
  rintro ⟨pre, c, post, _, hs⟩
  exact hno ⟨pre, c :: post, by rw [hs]⟩

/-- C10: on every output the pattern matches, splitting the matched text on a
space gives exactly the two pieces `version` and `t`, index 1 is in bounds
and `t` is returned without error; `t` is non-empty, has no white space and
consists of digits, `+`, `.` and `?` only. Hence no successful extraction
returns the empty string. -/
theorem getATSVersion_index_in_bounds (out : String) :
    ((∃ m, findAt versionRegexp out.data = some m) →
      ∃ t, Split (FindString versionRegexp out) ' ' = ["version", t] ∧
        (Split (FindString versionRegexp out) ' ')[1]? = some t ∧
        getATSVersion (out, none) = Run.ret (t, none) ∧ t ≠ "" ∧
        ∀ c ∈ t.data, isSpace c = false ∧
          (c.isDigit = true ∨ c = '+' ∨ c = '.' ∨ c = '?')) ∧
    (∀ exec v, getATSVersion exec = Run.ret (v, none) → v ≠ "") := by
  have main : ∀ (o : String) (m : List Char), findAt versionRegexp o.data = some m →
      ∃ t, Split (FindString versionRegexp o) ' ' = ["version", t] ∧
        (Split (FindString versionRegexp o) ' ')[1]? = some t ∧
        getATSVersion (o, none) = Run.ret (t, none) ∧ t ≠ "" ∧
        ∀ c ∈ t.data, isSpace c = false ∧
          (c.isDigit = true ∨ c = '+' ∨ c = '.' ∨ c = '?') := by
    intro o m hf
    obtain ⟨_, r, _, _, hne, hr, hm⟩ := findAt_version_some _ m hf
    rw [hm] at hf
    have hsplit : Split (FindString versionRegexp o) ' ' = ["version", String.mk r] := by
      simp only [FindString, hf, Split_version r hr]
    refine ⟨String.mk r, hsplit, by rw [hsplit]; rfl, getATSVersion_match o r hr hf,
      fun e => hne (congrArg String.data e), fun c hc => ⟨versionClass_not_isSpace c (hr c hc), ?_⟩⟩
    simpa [versionClass, or_assoc] using hr c hc
  refine ⟨fun ⟨m, hm⟩ => main out m hm, ?_⟩
  rintro ⟨o, e⟩ v h
  cases e with
  | some err => simp [getATSVersion] at h
  | none =>
    cases hf : findAt versionRegexp o.data with
    | none =>
      rw [getATSVersion_nomatch o hf] at h
      simp at h
    | some m =>
      obtain ⟨t, _, _, ht, hne, _⟩ := main o m hf
      rw [ht] at h
      simp only [Run.ret.injEq, Prod.mk.injEq, and_true] at h
      exact h ▸ hne

/-- Witness of C10: on `ATS/Postiats version 0.3.11 [...]` the pattern
matches, and the extraction returns a non-empty second piece. -/
theorem getATSVersion_index_in_bounds_witness :
    ∃ t, getATSVersion ("ATS/Postiats version 0.3.11 [Copyright (c) 2011-2018]", none) =
      Run.ret (t, none) ∧ t ≠ "" :=
  match (getATSVersion_index_in_bounds
      "ATS/Postiats version 0.3.11 [Copyright (c) 2011-2018]").1 ⟨_, rfl⟩ with
  | ⟨t, _, _, h, hne, _⟩ => ⟨t, h, hne⟩

/-- C3 (the code at the failing input): when `gcc -dumpversion` ends
successfully and printed nothing, or white space only, `getGCCVersion`
returns the empty string with a `nil` error. -/
theorem getGCCVersion_empty_output :
    getGCCVersion
        { pipeErr := none, startErr := none, stdout := "", readErr := none, waitErr := none } =
      ("", none) ∧
    getGCCVersion
        { pipeErr := none, startErr := none, stdout := " \n", readErr := none, waitErr := none } =
      ("", none) := by
  constructor <;> rfl

/-! ## Lemmas on new.go -/

theorem mkdirEach_events (w : World) (dirs : List String) (e : Event)
    (h : e ∈ (mkdirEach w dirs).1) : ∃ d, d ∈ dirs ∧ e = Event.mkdir d := by
  induction dirs with
  | nil => simp [mkdirEach] at h
  | cons d ds ih =>
    unfold mkdirEach at h
    cases hm : w.mkdir d with
    | some err =>
      simp only [hm, List.mem_singleton] at h
      exact ⟨d, List.mem_cons_self _ _, h⟩
    | none =>
      simp only [hm, List.mem_cons] at h
      rcases h with h | h
      · exact ⟨d, List.mem_cons_self _ _, h⟩
      · obtain ⟨d2, hd2, he⟩ := ih h
        exact ⟨d2, List.mem_cons_of_mem _ hd2, he⟩

theorem mkdirEach_ok (w : World) (dirs : List String) (h : ∀ d, w.mkdir d = none) :
    mkdirEach w dirs = (dirs.map Event.mkdir, none) := by
  induction dirs with
  | nil => rfl
  | cons d ds ih => simp [mkdirEach, h d, ih]

theorem writeEach_events (w : World) (files : FileTable) (order : List FileKey) (e : Event)
    (h : e ∈ (writeEach w files order).1) :
    ∃ k, k ∈ order ∧ (e = Event.create (files.get k).path ∨
      e = Event.writeString (files.get k).path (files.get k).text) := by
  induction order with
  | nil => simp [writeEach] at h
  | cons k ks ih =>
    unfold writeEach at h
    cases hc : w.create (files.get k).path with
    | some err =>
      simp only [hc, List.mem_singleton] at h
      exact ⟨k, List.mem_cons_self _ _, Or.inl h⟩
    | none =>
      cases hw : w.writeString (files.get k).path (files.get k).text with
      | some err =>
        simp only [hc, hw, List.mem_cons, List.mem_singleton, List.not_mem_nil, or_false] at h
        exact ⟨k, List.mem_cons_self _ _, h⟩
      | none =>
        simp only [hc, hw, List.mem_cons] at h
        rcases h with h | h | h
        · exact ⟨k, List.mem_cons_self _ _, Or.inl h⟩
        · exact ⟨k, List.mem_cons_self _ _, Or.inr h⟩
        · obtain ⟨k2, hk2, he⟩ := ih h
          exact ⟨k2, List.mem_cons_of_mem _ hk2, he⟩

theorem writeEach_ok (w : World) (files : FileTable) (order : List FileKey)
    (hc : ∀ p, w.create p = none) (hw : ∀ p t, w.writeString p t = none) :
    writeEach w files order =
      (order.flatMap fun k => [Event.create (files.get k).path,
        Event.writeString (files.get k).path (files.get k).text], none) := by
  induction order with
  | nil => rfl
  | cons k ks ih => simp [writeEach, hc, hw, ih]

theorem runNew_scaffold_mem (env : NewEnv) (name projName : String) (small lib cats : Bool)
    (e : Event) (h : e ∈ runNew_scaffold env name projName small lib cats) :
    (small = false ∧ (e = Event.createDirs lib cats ∨ e ∈ (createDirs env.world lib cats).1)) ∨
    e = Event.createDefaultFiles name projName small ∨
    e ∈ (createDefaultFiles env.world name projName small).1 ∨
    e.isLog = true := by
  unfold runNew_scaffold at h
  cases small
  · simp only [Bool.not_false, if_true] at h
    cases hd : (createDirs env.world lib cats).2 with
    | some err =>
      simp only [hd, debugFatal, List.mem_append, List.mem_cons, List.mem_singleton,
        List.not_mem_nil, or_false] at h
      rcases h with (h | h) | h | h
      · exact Or.inl ⟨rfl, Or.inl h⟩
      · exact Or.inl ⟨rfl, Or.inr h⟩
      · subst h; exact Or.inr (Or.inr (Or.inr rfl))
      · subst h; exact Or.inr (Or.inr (Or.inr rfl))
    | none =>
      simp only [hd] at h
      split at h <;>
        simp only [debugFatal, List.mem_append, List.mem_cons, List.mem_singleton,
          List.not_mem_nil, or_false] at h
      all_goals
        rcases h with ((h | h) | h | h) | h
        · exact Or.inl ⟨rfl, Or.inl h⟩
        · exact Or.inl ⟨rfl, Or.inr h⟩
        · exact Or.inr (Or.inl h)
        · exact Or.inr (Or.inr (Or.inl h))
        · first
            | (rcases h with h | h <;> subst h <;> exact Or.inr (Or.inr (Or.inr rfl)))
            | (subst h; exact Or.inr (Or.inr (Or.inr rfl)))
  · simp only [Bool.not_true, Bool.false_eq_true, if_false] at h
    split at h <;>
      simp only [debugFatal, List.mem_append, List.mem_cons, List.mem_singleton,
        List.not_mem_nil, or_false, false_or, List.nil_append] at h
    all_goals
      rcases h with (h | h) | h
      · exact Or.inr (Or.inl h)
      · exact Or.inr (Or.inr (Or.inl h))
      · first
          | (rcases h with h | h <;> subst h <;> exact Or.inr (Or.inr (Or.inr rfl)))
          | (subst h; exact Or.inr (Or.inr (Or.inr rfl)))

theorem debugFatal_isLog (err msg : String) (e : Event) (h : e ∈ debugFatal err msg) :
    e.isLog = true := by
  simp only [debugFatal, List.mem_cons, List.mem_singleton, List.not_mem_nil, or_false] at h
  rcases h with h | h <;> subst h <;> rfl

theorem runNew_config_mem (env : NewEnv) (name projName : String) (small lib cats : Bool)
    (e : Event) (h : e ∈ runNew_config env name projName small lib cats) :
    e = Event.configNew name projName small ∨ e = Event.configWrite ∨ e = Event.initGitRepo ∨
    e.isLog = true ∨ e ∈ runNew_scaffold env name projName small lib cats := by
  unfold runNew_config at h
  simp only [List.mem_cons] at h
  rcases h with h | h | h
  · exact Or.inl h
  · exact Or.inr (Or.inl h)
  · split at h
    · exact Or.inr (Or.inr (Or.inr (Or.inl (debugFatal_isLog _ _ e h))))
    · split at h
      · exact Or.inr (Or.inr (Or.inr (Or.inl (debugFatal_isLog _ _ e h))))
      · split at h
        · simp only [List.mem_cons] at h
          rcases h with h | h
          · exact Or.inr (Or.inr (Or.inl h))
          · split at h
            · exact Or.inr (Or.inr (Or.inr (Or.inl (debugFatal_isLog _ _ e h))))
            · exact Or.inr (Or.inr (Or.inr (Or.inr h)))
        · exact Or.inr (Or.inr (Or.inr (Or.inr h)))

theorem runNew_mem (env : NewEnv) (args : List String) (e : Event) (h : e ∈ runNew env args) :
    e.isLog = true ∨ (∃ m, e = Event.panic m) ∨ (∃ p, e = Event.makeProjectDir p) ∨
    e ∈ runNew_config env (if env.name.1 = "" then env.getProjName.1 else env.name.1)
      env.getProjName.1 env.small.1 env.lib.1 env.cats.1 := by
  unfold runNew at h
  split at h
  · exact Or.inl (debugFatal_isLog _ _ e h)
  split at h
  · exact Or.inl (debugFatal_isLog _ _ e h)
  split at h
  · exact Or.inl (debugFatal_isLog _ _ e h)
  simp only at h
  split at h
  · simp only [List.mem_singleton] at h
    subst h; exact Or.inl rfl
  split at h
  · simp only [List.mem_singleton] at h
    exact Or.inr (Or.inl ⟨_, h⟩)
  simp only [List.mem_cons] at h
  rcases h with h | h
  · exact Or.inr (Or.inr (Or.inl ⟨_, h⟩))
  split at h
  · simp only [List.mem_cons, List.mem_singleton, List.not_mem_nil, or_false] at h
    rcases h with h | h <;> subst h <;> exact Or.inl rfl
  split at h
  · exact Or.inl (debugFatal_isLog _ _ e h)
  split at h
  · exact Or.inl (debugFatal_isLog _ _ e h)
  exact Or.inr (Or.inr (Or.inr h))

theorem validateNewArgs_none (small cats : Bool) (args : List String)
    (h : validateNewArgs small cats args = none) :
    ∃ path, args = [path] ∧ ¬ (small = true ∧ cats = true) := by
  unfold validateNewArgs at h
  match args, h with
  | [], h => simp [Errorf] at h
  | [path], h =>
    refine ⟨path, rfl, ?_⟩
    rintro ⟨rfl, rfl⟩
    simp [Errorf] at h
  | _ :: _ :: _, h => simp [Errorf] at h

theorem runNew_reaches_config (env : NewEnv) (args : List String)
    (hsmall : env.small.2 = none) (hcats : env.cats.2 = none) (hlib : env.lib.2 = none)
    (hargs : validateNewArgs env.small.1 env.cats.1 args = none)
    (hdir : ∀ p, env.makeProjectDir p = none) (hproj : env.getProjName.2 = none)
    (hname : env.name.2 = none) :
    ∃ path, args = [path] ∧ runNew env args =
      Event.makeProjectDir path ::
        runNew_config env (if env.name.1 = "" then env.getProjName.1 else env.name.1)
          env.getProjName.1 env.small.1 env.lib.1 env.cats.1 := by
  obtain ⟨path, rfl, _⟩ := validateNewArgs_none _ _ _ hargs
  refine ⟨path, rfl, ?_⟩
  unfold runNew
  simp only [hsmall, hcats, hlib, hargs, hdir, hproj, hname]
  rfl

theorem splitChars_after_sep (sep : Char) (a rest : List Char) :
    ∃ first mid, splitChars sep (a ++ sep :: rest) = first :: (mid ++ splitChars sep rest) := by
  induction a with
  | nil => exact ⟨[], [], by simp [splitChars]⟩
  | cons c cs ih =>
    obtain ⟨first, mid, h⟩ := ih
    by_cases hc : c = sep
    · exact ⟨[], first :: mid, by simp [splitChars, hc, h]⟩
    · exact ⟨c :: first, mid, by simp [splitChars, hc, h]⟩

theorem splitChars_head (sep : Char) (line rest : List Char) (h : sep ∉ line) :
    ∃ more, splitChars sep (line ++ sep :: rest) = line :: more := by
  induction line with
  | nil => exact ⟨splitChars sep rest, by simp [splitChars]⟩
  | cons c cs ih =>
    simp only [List.mem_cons, not_or] at h
    obtain ⟨more, hm⟩ := ih h.2
    have hc : ¬ c = sep := fun e => h.1 e.symm
    exact ⟨more, by simp [splitChars, hc, hm]⟩

theorem splitChars_line_mem (sep : Char) (before line after : List Char) (h : sep ∉ line) :
    line ∈ splitChars sep (before ++ sep :: (line ++ sep :: after)) := by
  obtain ⟨first, mid, h1⟩ := splitChars_after_sep sep before (line ++ sep :: after)
  obtain ⟨more, h2⟩ := splitChars_head sep line after h
  rw [h1, h2]
  simp

theorem runNew_scaffold_dirs (env : NewEnv) (name projName : String) (lib cats : Bool) :
    Event.createDirs lib cats ∈ runNew_scaffold env name projName false lib cats := by
  unfold runNew_scaffold
  simp only [Bool.not_false, if_true]
  split
  · simp
  · split <;> simp

theorem runNew_scaffold_files (env : NewEnv) (name projName : String) (small lib cats : Bool)
    (h : ∀ d, env.world.mkdir d = none) :
    Event.createDefaultFiles name projName small ∈
      runNew_scaffold env name projName small lib cats := by
  unfold runNew_scaffold
  cases small
  · simp only [Bool.not_false, if_true, createDirs, mkdirEach_ok env.world _ h]
    split <;> simp
  · simp only [Bool.not_true, Bool.false_eq_true, if_false]
    split <;> simp

theorem runNew_config_scaffold (env : NewEnv) (name projName : String) (small lib cats : Bool)
    (hwrite : env.configWrite = none) (hgit : env.git.2 = none) (hinit : env.initGitRepo = none)
    (e : Event) (h : e ∈ runNew_scaffold env name projName small lib cats) :
    e ∈ runNew_config env name projName small lib cats := by
  unfold runNew_config
  simp only [hwrite, hgit, hinit]
  split <;> simp [h]

/-! ## Theorems on new.go -/

/-- C4: `validateNewArgs` returns `nil` exactly when there is one argument
and not both `small` and `cats`. Of the errors, the argument count comes
first: no argument gives "no project path provided", more than one names the
second argument, and only with exactly one argument do `small` and `cats`
together give the CATS error. -/
theorem validateNewArgs_spec (small cats : Bool) (args : List String) :
    (validateNewArgs small cats args = none ↔
      args.length = 1 ∧ ¬ (small = true ∧ cats = true)) ∧
    (args.length = 0 →
      validateNewArgs small cats args = some "no project path provided") ∧
    (∀ h : 1 < args.length,
      validateNewArgs small cats args =
        some ("found unexpected argument '" ++ args[1] ++ "'")) ∧
    (args.length = 1 → small = true → cats = true →
      validateNewArgs small cats args =
        some "can't specify a CATS directory in a small project") := by
  match args with
  | [] =>
    refine ⟨?_, fun _ => rfl, fun h => absurd h (by simp), fun h => absurd h (by simp)⟩
    simp [validateNewArgs, Errorf]
  | [a] =>
    refine ⟨?_, fun h => absurd h (by simp), fun h => absurd h (by simp), ?_⟩
    · cases small <;> cases cats <;> simp [validateNewArgs, Errorf]
    · rintro _ rfl rfl
      rfl
  | a :: b :: rest =>
    refine ⟨?_, fun h => absurd h (by simp), fun _ => ?_, fun h => absurd h (by simp)⟩
    · simp [validateNewArgs, Errorf]
    · have h1 : ¬ (rest.length + 1 + 1 = 0) := by omega
      have h2 : rest.length + 1 + 1 > 1 := by omega
      simp only [validateNewArgs, Errorf, List.length_cons, h1, h2, if_false, dite_true]
      rfl

/-- Witness of C4: `wom new a b` is rejected naming `b`; `wom new a` is
accepted. -/
theorem validateNewArgs_spec_witness :
    validateNewArgs false false ["a", "b"] = some "found unexpected argument 'b'" ∧
    validateNewArgs false false ["a"] = none :=
  ⟨(validateNewArgs_spec false false ["a", "b"]).2.2.1 (by decide),
    (validateNewArgs_spec false false ["a"]).1.mpr ⟨rfl, by decide⟩⟩

/-- C5 (the code at the failing input): with no positional argument
`validateNewArgs` returns the error "no project path provided", whatever the
flags, and `runNew` ends with that fatal message before any directory or file
is touched. -/
theorem validateNewArgs_no_args (small cats : Bool) :
    validateNewArgs small cats [] = some "no project path provided" ∧
    runNew okEnv [] = [Event.fatal "no project path provided"] :=
  ⟨rfl, rfl⟩

/-- C6: in the full layout the three files go to `DATS/<projName>.dats`,
`SATS/<projName>.sats` and `staloadall.hats`; in the small layout to
`<projName>.dats`, `<projName>.sats` and `staloadall.hats`. The paths do not
depend on the package name, `os.Create` is called on these paths only, and
on a file system that accepts every call each file of the map is created. -/
theorem createDefaultFiles_paths (name projName : String) :
    ((createDefaultFiles_files name projName false).dats.path = "DATS/" ++ projName ++ ".dats" ∧
      (createDefaultFiles_files name projName false).sats.path = "SATS/" ++ projName ++ ".sats" ∧
      (createDefaultFiles_files name projName false).hats.path = "staloadall.hats") ∧
    ((createDefaultFiles_files name projName true).dats.path = projName ++ ".dats" ∧
      (createDefaultFiles_files name projName true).sats.path = projName ++ ".sats" ∧
      (createDefaultFiles_files name projName true).hats.path = "staloadall.hats") ∧
    (∀ (other : String) (small : Bool) (k : FileKey),
      ((createDefaultFiles_files other projName small).get k).path =
        ((createDefaultFiles_files name projName small).get k).path) ∧
    (∀ (w : World) (small : Bool) (p : String),
      Event.create p ∈ (createDefaultFiles w name projName small).1 →
        p = (createDefaultFiles_files name projName small).dats.path ∨
        p = (createDefaultFiles_files name projName small).sats.path ∨
        p = (createDefaultFiles_files name projName small).hats.path) ∧
    (∀ (w : World) (small : Bool), (∀ p, w.create p = none) →
      (∀ p t, w.writeString p t = none) → ∀ k, k ∈ w.order →
        Event.create ((createDefaultFiles_files name projName small).get k).path ∈
          (createDefaultFiles w name projName small).1) := by
  refine ⟨⟨rfl, rfl, rfl⟩, ⟨rfl, rfl, rfl⟩, ?_, ?_, ?_⟩
  · intro other small k
    have hd : ∀ n : String, (createDefaultFiles_files n projName small).dats.path =
        Sprintf (if small then "%s.dats" else "DATS/%s.dats") [projName] := by
      intro n; cases small <;> rfl
    have hs : ∀ n : String, (createDefaultFiles_files n projName small).sats.path =
        Sprintf (if small then "%s.sats" else "SATS/%s.sats") [projName] := by
      intro n; cases small <;> rfl
    have hh : ∀ n : String, (createDefaultFiles_files n projName small).hats.path =
        "staloadall.hats" := by
      intro n; cases small <;> rfl
    cases k
    · exact (hd other).trans (hd name).symm
    · exact (hs other).trans (hs name).symm
    · exact (hh other).trans (hh name).symm
  · intro w small p h
    obtain ⟨k, _, hk⟩ := writeEach_events _ _ _ _ h
    rcases hk with hk | hk
    · cases k
      · exact Or.inl (Event.create.inj hk)
      · exact Or.inr (Or.inl (Event.create.inj hk))
      · exact Or.inr (Or.inr (Event.create.inj hk))
    · cases hk
  · intro w small hc hw k hk
    unfold createDefaultFiles
    rw [writeEach_ok w _ _ hc hw]
    simp only [List.mem_flatMap]
    exact ⟨k, hk, by simp⟩

/-- Witness of C6: on a file system that accepts every call, the full layout
of project `myproj` creates `SATS/myproj.sats`. -/
theorem createDefaultFiles_paths_witness :
    Event.create "SATS/myproj.sats" ∈ (createDefaultFiles okWorld "pkg" "myproj" false).1 :=
  (createDefaultFiles_paths "pkg" "myproj").2.2.2.2 okWorld false (fun _ => rfl)
    (fun _ _ => rfl) FileKey.sats (by decide)

set_option maxRecDepth 100000 in
theorem hats_text_eq (name projName : String) (small : Bool) :
    (createDefaultFiles_files name projName small).hats.text =
      ("(* ****** ****** *)\n//\n// staloadall.hats\n" ++
        "// Generated by wombats (https://github.com/RyanTKing/wombats)\n//\n" ++
        "(* ****** ****** *)\n") ++ "\n" ++
        ("#staload \"./" ++ ((if small then "" else "SATS/") ++ projName ++ ".sats") ++ "\"") ++
        "\n" ++ "\n(* End of [staloadall.hats] *)" := by
  apply String.ext
  simp only [String.data_append, List.append_assoc]
  cases small <;> rfl

theorem sats_path_eq (name projName : String) (small : Bool) :
    (createDefaultFiles_files name projName small).sats.path =
      (if small then "" else "SATS/") ++ projName ++ ".sats" := by
  cases small <;> rfl

theorem hats_table_line (name projName : String) (small : Bool) :
    (createDefaultFiles_files name projName small).hats.path = "staloadall.hats" ∧
    (∃ before after : String,
      (createDefaultFiles_files name projName small).hats.text =
        before ++ "\n" ++
          ("#staload \"./" ++ (createDefaultFiles_files name projName small).sats.path ++ "\"") ++
          "\n" ++ after) ∧
    ('\n' ∉ projName.data →
      ("#staload \"./" ++ (createDefaultFiles_files name projName small).sats.path ++ "\"") ∈
        Split (createDefaultFiles_files name projName small).hats.text '\n') ∧
    (createDefaultFiles_files name projName false).sats.path = "SATS/" ++ projName ++ ".sats" ∧
    (createDefaultFiles_files name projName true).sats.path = projName ++ ".sats" := by
  have hpath := sats_path_eq name projName small
  have htext := hats_text_eq name projName small
  rw [← hpath] at htext
  refine ⟨by cases small <;> rfl, ⟨_, _, htext⟩, ?_, rfl, rfl⟩
  intro hnl
  rw [htext, hpath]
  simp only [Split, List.mem_map]
  refine ⟨("#staload \"./" ++ ((if small then "" else "SATS/") ++ projName ++ ".sats") ++
    "\"").data, ?_, rfl⟩
  simp only [String.data_append, List.append_assoc]
  have hline : '\n' ∉ "#staload \"./".data ++
      ((if small = true then "" else "SATS/").data ++ (projName.data ++ (".sats".data ++
        "\"".data))) := by
    cases small <;> simp [hnl]
  have := splitChars_line_mem '\n'
    ("(* ****** ****** *)\n//\n// staloadall.hats\n" ++
        "// Generated by wombats (https://github.com/RyanTKing/wombats)\n//\n" ++
        "(* ****** ****** *)\n").data _ "\n(* End of [staloadall.hats] *)".data hline
  simpa [List.append_assoc] using this

theorem hats_path_ne (s : String) :
    "staloadall.hats" ≠ s ++ ".dats" ∧ "staloadall.hats" ≠ s ++ ".sats" := by
  constructor <;> intro h <;>
    · have h2 := congrArg (fun x : String => x.data.reverse.take 5) h
      simp [String.data_append, List.reverse_append] at h2

theorem hats_write_text (w : World) (name projName : String) (small : Bool) (t : String)
    (h : Event.writeString "staloadall.hats" t ∈ (createDefaultFiles w name projName small).1) :
    t = (createDefaultFiles_files name projName small).hats.text := by
  obtain ⟨k, _, hk | hk⟩ := writeEach_events _ _ _ _ h
  · cases hk
  · have hp := (Event.writeString.inj hk).1
    have ht := (Event.writeString.inj hk).2
    cases k
    · exfalso
      have hd : (createDefaultFiles_files name projName small).dats.path =
          (if small then "" else "DATS/") ++ projName ++ ".dats" := by
        cases small <;> rfl
      exact (hats_path_ne _).1 (hp.trans hd)
    · exfalso
      exact (hats_path_ne _).2 (hp.trans (sats_path_eq name projName small))
    · exact ht

theorem files_paths_ite (name projName : String) (small : Bool) :
    (createDefaultFiles_files name projName small).dats.path =
      (if small then projName ++ ".dats" else "DATS/" ++ projName ++ ".dats") ∧
    (createDefaultFiles_files name projName small).sats.path =
      (if small then projName ++ ".sats" else "SATS/" ++ projName ++ ".sats") ∧
    (createDefaultFiles_files name projName small).hats.path = "staloadall.hats" := by
  cases small <;> exact ⟨rfl, rfl, rfl⟩

/-- C7: every text that `createDefaultFiles` writes to `staloadall.hats`
contains, between two line breaks, the line `#staload "./<P>"`, where `<P>`
is `SATS/<projName>.sats` in the full layout and `<projName>.sats` in the
small one; when the project name has no line break, that line is one of the
lines of the text. `<P>` is where the `.sats` file is created: `os.Create`
is called on the `.dats` path, on `<P>` and on `staloadall.hats` only, and
when every call succeeds and the loop visits the `sats` and `hats` entries,
a file is created at `<P>`, the `.sats` text is written to it, and the header
is written to `staloadall.hats`. -/
theorem defaultHATS_references_sats (w : World) (name projName : String) (small : Bool) :
    (∀ t, Event.writeString "staloadall.hats" t ∈
        (createDefaultFiles w name projName small).1 →
      (∃ before after : String, t = before ++ "\n" ++
        ("#staload \"./" ++
          (if small then projName ++ ".sats" else "SATS/" ++ projName ++ ".sats") ++ "\"") ++
        "\n" ++ after) ∧
      ('\n' ∉ projName.data →
        ("#staload \"./" ++
          (if small then projName ++ ".sats" else "SATS/" ++ projName ++ ".sats") ++ "\"") ∈
            Split t '\n')) ∧
    (∀ p, Event.create p ∈ (createDefaultFiles w name projName small).1 →
      p = (if small then projName ++ ".dats" else "DATS/" ++ projName ++ ".dats") ∨
      p = (if small then projName ++ ".sats" else "SATS/" ++ projName ++ ".sats") ∨
      p = "staloadall.hats") ∧
    ((∀ p, w.create p = none) → (∀ p t, w.writeString p t = none) →
      FileKey.sats ∈ w.order → FileKey.hats ∈ w.order →
      Event.create (if small then projName ++ ".sats" else "SATS/" ++ projName ++ ".sats") ∈
        (createDefaultFiles w name projName small).1 ∧
      Event.writeString (if small then projName ++ ".sats" else "SATS/" ++ projName ++ ".sats")
        (Sprintf defaultSATS [name, name]) ∈ (createDefaultFiles w name projName small).1 ∧
      ∃ t, Event.writeString "staloadall.hats" t ∈
        (createDefaultFiles w name projName small).1) := by
  obtain ⟨hd, hs, hh⟩ := files_paths_ite name projName small
  rw [← hd, ← hs]
  refine ⟨?_, ?_, ?_⟩
  · intro t ht
    rw [hats_write_text w name projName small t ht]
    exact ⟨(hats_table_line name projName small).2.1, (hats_table_line name projName small).2.2.1⟩
  · intro p hp
    obtain ⟨k, _, hk | hk⟩ := writeEach_events _ _ _ _ hp
    · cases k
      · exact Or.inl (Event.create.inj hk)
      · exact Or.inr (Or.inl (Event.create.inj hk))
      · exact Or.inr (Or.inr ((Event.create.inj hk).trans hh))
    · cases hk
  · intro hc hw hsats hhats
    have htext : (createDefaultFiles_files name projName small).sats.text =
        Sprintf defaultSATS [name, name] := by
      cases small <;> rfl
    unfold createDefaultFiles
    rw [writeEach_ok w _ _ hc hw]
    simp only [List.mem_flatMap]
    refine ⟨⟨FileKey.sats, hsats, by simp [FileTable.get]⟩,
      ⟨FileKey.sats, hsats, by simp [FileTable.get, htext]⟩,
      (createDefaultFiles_files name projName small).hats.text, FileKey.hats, hhats, ?_⟩
    simp [FileTable.get, hh]

/-- Witness of C7: on a file system that accepts every call, the full layout
of project `myproj` creates `SATS/myproj.sats` and writes to
`staloadall.hats` a text with the line `#staload "./SATS/myproj.sats"`. -/
theorem defaultHATS_references_sats_witness :
    Event.create "SATS/myproj.sats" ∈ (createDefaultFiles okWorld "pkg" "myproj" false).1 ∧
    ∃ t, Event.writeString "staloadall.hats" t ∈
        (createDefaultFiles okWorld "pkg" "myproj" false).1 ∧
      "#staload \"./SATS/myproj.sats\"" ∈ Split t '\n' :=
  match (defaultHATS_references_sats okWorld "pkg" "myproj" false).2.2 (fun _ => rfl)
      (fun _ _ => rfl) (by decide) (by decide) with
  | ⟨hcreate, _, t, ht⟩ =>
    ⟨hcreate, t, ht,
      ((defaultHATS_references_sats okWorld "pkg" "myproj" false).1 t ht).2 (by decide)⟩

/-- C8: every call `config.New(n, p, s)` and every call
`createDefaultFiles(n, p, s)` made by `runNew` has `n` equal to the `--name`
flag when that is non-empty and to the directory name otherwise, and `p`
equal to the directory name. When the steps before it succeed, `config.New`
is called so, right after the project directory is made; when the later
steps succeed too, `createDefaultFiles` is called so. -/
theorem runNew_name_policy (env : NewEnv) (args : List String) :
    (∀ n p s, Event.configNew n p s ∈ runNew env args →
      n = (if env.name.1 = "" then env.getProjName.1 else env.name.1) ∧
        p = env.getProjName.1 ∧ s = env.small.1) ∧
    (∀ n p s, Event.createDefaultFiles n p s ∈ runNew env args →
      n = (if env.name.1 = "" then env.getProjName.1 else env.name.1) ∧
        p = env.getProjName.1 ∧ s = env.small.1) ∧
    (env.small.2 = none → env.cats.2 = none → env.lib.2 = none →
      validateNewArgs env.small.1 env.cats.1 args = none →
      (∀ p, env.makeProjectDir p = none) → env.getProjName.2 = none → env.name.2 = none →
      (∃ path rest, args = [path] ∧ runNew env args =
        Event.makeProjectDir path ::
          Event.configNew (if env.name.1 = "" then env.getProjName.1 else env.name.1)
            env.getProjName.1 env.small.1 :: Event.configWrite :: rest) ∧
      (env.configWrite = none → env.git.2 = none → env.initGitRepo = none →
        (∀ d, env.world.mkdir d = none) →
        Event.createDefaultFiles (if env.name.1 = "" then env.getProjName.1 else env.name.1)
          env.getProjName.1 env.small.1 ∈ runNew env args)) := by
  refine ⟨?_, ?_, ?_⟩
  · intro n p s h
    rcases runNew_mem env args _ h with h | ⟨_, h⟩ | ⟨_, h⟩ | h
    · cases h
    · cases h
    · cases h
    · rcases runNew_config_mem _ _ _ _ _ _ _ h with h | h | h | h | h
      · cases h; exact ⟨rfl, rfl, rfl⟩
      · cases h
      · cases h
      · cases h
      · rcases runNew_scaffold_mem _ _ _ _ _ _ _ h with ⟨_, h | h⟩ | h | h | h
        · cases h
        · obtain ⟨_, _, h⟩ := mkdirEach_events _ _ _ h
          cases h
        · cases h
        · obtain ⟨_, _, h | h⟩ := writeEach_events _ _ _ _ h <;> cases h
        · cases h
  · intro n p s h
    rcases runNew_mem env args _ h with h | ⟨_, h⟩ | ⟨_, h⟩ | h
    · cases h
    · cases h
    · cases h
    · rcases runNew_config_mem _ _ _ _ _ _ _ h with h | h | h | h | h
      · cases h
      · cases h
      · cases h
      · cases h
      · rcases runNew_scaffold_mem _ _ _ _ _ _ _ h with ⟨_, h | h⟩ | h | h | h
        · cases h
        · obtain ⟨_, _, h⟩ := mkdirEach_events _ _ _ h
          cases h
        · cases h; exact ⟨rfl, rfl, rfl⟩
        · obtain ⟨_, _, h | h⟩ := writeEach_events _ _ _ _ h <;> cases h
        · cases h
  · intro hsmall hcats hlib hargs hdir hproj hname
    obtain ⟨path, hp, hrun⟩ :=
      runNew_reaches_config env args hsmall hcats hlib hargs hdir hproj hname
    refine ⟨⟨path, _, hp, by rw [hrun]; rfl⟩, ?_⟩
    intro hwrite hgit hinit hmk
    rw [hrun]
    exact List.mem_cons_of_mem _
      (runNew_config_scaffold _ _ _ _ _ _ hwrite hgit hinit _
        (runNew_scaffold_files _ _ _ _ _ _ hmk))

/-- Witness of C8: with an empty `--name` and the directory `myproj`, both
`config.New` and `createDefaultFiles` are called with the package name
`myproj`. -/
theorem runNew_name_policy_witness :
    Event.configNew "myproj" "myproj" false ∈ runNew okEnv ["myproj"] ∧
    Event.createDefaultFiles "myproj" "myproj" false ∈ runNew okEnv ["myproj"] :=
  match (runNew_name_policy okEnv ["myproj"]).2.2 rfl rfl rfl rfl (fun _ => rfl) rfl rfl with
  | ⟨⟨_, _, _, h⟩, h2⟩ =>
    ⟨h ▸ List.mem_cons_of_mem _ (List.mem_cons_self _ _), h2 rfl rfl rfl (fun _ => rfl)⟩

/-- C9: the list of directories of `createDirs` is `SATS`, `DATS`, then
`BUILD` exactly when `lib` is false, then `CATS` exactly when `cats` is
true, without duplicates; these are the directories it makes. `runNew`
calls `createDirs`, and makes directories, only when `small` is false, and
does call it when `small` is false and the steps before it succeed. -/
theorem createDirs_dirs_spec (lib cats : Bool) :
    createDirs_dirs lib cats =
      ["SATS", "DATS"] ++ (if lib = false then ["BUILD"] else []) ++
        (if cats = true then ["CATS"] else []) ∧
    (createDirs_dirs lib cats).Nodup ∧
    ("BUILD" ∈ createDirs_dirs lib cats ↔ lib = false) ∧
    ("CATS" ∈ createDirs_dirs lib cats ↔ cats = true) ∧
    createDirs_dirs false false = ["SATS", "DATS", "BUILD"] ∧
    (∀ w : World, (∀ d, w.mkdir d = none) →
      createDirs w lib cats = ((createDirs_dirs lib cats).map Event.mkdir, none)) ∧
    (∀ (w : World) (e : Event), e ∈ (createDirs w lib cats).1 →
      ∃ d, d ∈ createDirs_dirs lib cats ∧ e = Event.mkdir d) ∧
    (∀ (env : NewEnv) (args : List String) (l c : Bool),
      Event.createDirs l c ∈ runNew env args →
        env.small.1 = false ∧ l = env.lib.1 ∧ c = env.cats.1) ∧
    (∀ (env : NewEnv) (args : List String) (d : String),
      Event.mkdir d ∈ runNew env args → env.small.1 = false) ∧
    (∀ (env : NewEnv) (args : List String),
      env.small = (false, none) → env.cats.2 = none → env.lib.2 = none →
      validateNewArgs false env.cats.1 args = none →
      (∀ p, env.makeProjectDir p = none) → env.getProjName.2 = none → env.name.2 = none →
      env.configWrite = none → env.git.2 = none → env.initGitRepo = none →
        Event.createDirs env.lib.1 env.cats.1 ∈ runNew env args) := by
  refine ⟨by cases lib <;> cases cats <;> rfl, by cases lib <;> cases cats <;> decide,
    by cases lib <;> cases cats <;> decide, by cases lib <;> cases cats <;> decide, rfl,
    fun w h => mkdirEach_ok w _ h, fun w e h => mkdirEach_events w _ e h, ?_, ?_, ?_⟩
  · intro env args l c h
    rcases runNew_mem env args _ h with h | ⟨_, h⟩ | ⟨_, h⟩ | h
    · cases h
    · cases h
    · cases h
    · rcases runNew_config_mem _ _ _ _ _ _ _ h with h | h | h | h | h
      · cases h
      · cases h
      · cases h
      · cases h
      · rcases runNew_scaffold_mem _ _ _ _ _ _ _ h with ⟨hs, h | h⟩ | h | h | h
        · cases h; exact ⟨hs, rfl, rfl⟩
        · obtain ⟨_, _, h⟩ := mkdirEach_events _ _ _ h
          cases h
        · cases h
        · obtain ⟨_, _, h | h⟩ := writeEach_events _ _ _ _ h <;> cases h
        · cases h
  · intro env args d h
    rcases runNew_mem env args _ h with h | ⟨_, h⟩ | ⟨_, h⟩ | h
    · cases h
    · cases h
    · cases h
    · rcases runNew_config_mem _ _ _ _ _ _ _ h with h | h | h | h | h
      · cases h
      · cases h
      · cases h
      · cases h
      · rcases runNew_scaffold_mem _ _ _ _ _ _ _ h with ⟨hs, _⟩ | h | h | h
        · exact hs
        · cases h
        · obtain ⟨_, _, h | h⟩ := writeEach_events _ _ _ _ h <;> cases h
        · cases h
  · intro env args hsmall hcats hlib hargs hdir hproj hname hwrite hgit hinit
    have hs1 : env.small.1 = false := by rw [hsmall]
    have hs2 : env.small.2 = none := by rw [hsmall]
    obtain ⟨path, _, hrun⟩ :=
      runNew_reaches_config env args hs2 hcats hlib (by rw [hs1]; exact hargs) hdir hproj hname
    rw [hrun, hs1]
    exact List.mem_cons_of_mem _
      (runNew_config_scaffold _ _ _ _ _ _ hwrite hgit hinit _ (runNew_scaffold_dirs _ _ _ _ _))

/-- Witness of C9: a run of `wom new myproj` without flags calls
`createDirs(false, false)`, which on a file system that accepts every call
makes the directories `SATS`, `DATS` and `BUILD`. -/
theorem createDirs_dirs_spec_witness :
    Event.createDirs false false ∈ runNew okEnv ["myproj"] ∧
    createDirs okWorld false false =
      ([Event.mkdir "SATS", Event.mkdir "DATS", Event.mkdir "BUILD"], none) :=
  ⟨(createDirs_dirs_spec false false).2.2.2.2.2.2.2.2.2 okEnv ["myproj"] rfl rfl rfl rfl
      (fun _ => rfl) rfl rfl rfl rfl rfl,
    (createDirs_dirs_spec false false).2.2.2.2.2.1 okWorld (fun _ => rfl)⟩

end Wombats
